import Mathlib

/-!
# A shallow embedding of the `roads` terminal application

`roads` is an interactive terminal program that renders the road network of a
geographic place into an SVG file.  This file embeds the program's data model
and operations in Lean and proves properties of them:

* the Overpass query builder of `fetch_roads` (src/lib.rs),
* the spherical-Mercator projection `LatLon::to_xy` (src/lib.rs),
* the wrapping selection list `WrappingList` (src/util.rs),
* the UI state machine: `handle_key_event`, the main-loop key dispatch,
  the parameter editor and the background-fetch controller (src/main.rs),
* the SVG writer `dump_svg` (src/main.rs) and the polyline simplifier
  (module `roads::simplify`, modelled from its specification).

Floating-point numbers of the source are modelled as real numbers (`ℝ`) where
transcendental functions are involved and as rationals (`ℚ`) for the option
values.  Rust panics (`unwrap` on `None`) are modelled as `Except.error`.
-/

namespace Roads

/-- Key codes delivered by the terminal event stream (crossterm `KeyCode`,
restricted to the constructors the program inspects; every other key behaves
like `Other`). -/
inductive KeyCode where
  | Esc
  | Enter
  | Tab
  | BackTab
  | Backspace
  | Up
  | Down
  | Char (c : Char)
  | Other
deriving DecidableEq

/-- Keyboard modifiers; the program only compares against CONTROL. -/
inductive Mods where
  | none
  | control
  | shift
deriving DecidableEq

/-- The focusable panels of the UI (`WidgetId` in main.rs). -/
inductive WidgetId where
  | Places
  | Search
  | Options
  | Help
  | Error
  | ParamEdit
deriving DecidableEq

/-- The state of the background worker (`WorkerState` in main.rs); the error
payload is kept as its rendered message. -/
inductive WorkerState where
  | Idle
  | Fetching
  | Error (msg : String)
deriving DecidableEq

/-- The kinds of option values the program registers. -/
inductive PKind where
  | real
  | str
  | bool
deriving DecidableEq

/-- An option value.  The Rust source erases `f64` / `String` / `bool` behind
a `ParamValue` trait object; following the spec's design note this is a tagged
sum, with the reals modelled as rationals. -/
inductive PValue where
  | real (q : ℚ)
  | str (s : String)
  | bool (b : Bool)
deriving DecidableEq

/-- The concrete type carried by an option value. -/
def PValue.kind : PValue → PKind
  | .real _ => .real
  | .str _ => .str
  | .bool _ => .bool

/-- Rust's `bool::from_str`: exactly the strings "true" and "false" parse. -/
def parseBool (s : String) : Option Bool :=
  if s = ("true") then some true
  else if s = ("false") then some false
  else none

/-- Decimal-literal parser for the real option kind, modelling Rust's
`f64::from_str` on plain decimal literals (digits with an optional fractional
part; the exotic forms inf / NaN / exponents are never produced by the
program's options). -/
def parseRealCore (t : String) : Option ℚ :=
  match t.splitOn (".") with
  | [a] => (a.toNat?).map (fun n => (n : ℚ))
  | [a, b] =>
    match a.toNat?, b.toNat? with
    | some n, some f => some ((n : ℚ) + (f : ℚ) / 10 ^ b.length)
    | _, _ => none
  | _ => none

/-- Decimal-literal parser with an optional leading minus sign. -/
def parseReal (s : String) : Option ℚ :=
  if s.startsWith ("-") then (parseRealCore (s.drop 1)).map (fun q => -q)
  else parseRealCore s

/-- Render a real option value the way Rust's `Display` for f64 prints the
program's option values: integer values without a decimal point, other
decimal-representable values with one. -/
def renderReal (q : ℚ) : String :=
  if q.den = 1 then toString q.num
  else
    match (List.range 20).find? (fun k => decide (q.den ∣ 10 ^ k)) with
    | some k =>
      let m : ℤ := q.num * ((10 ^ k / q.den : ℕ) : ℤ)
      let sign := if m < 0 then ("-") else ("")
      let a := m.natAbs / 10 ^ k
      let b := m.natAbs % 10 ^ k
      let bs := toString b
      let pad := String.mk (List.replicate (k - bs.length) ('0'))
      sign ++ toString a ++ (".") ++ pad ++ bs
    | none => toString q.num ++ ("/") ++ toString q.den

/-- Render an option value to a string (the `Display` half of `ParamValue`). -/
def PValue.render : PValue → String
  | .real q => renderReal q
  | .str s => s
  | .bool b => if b then ("true") else ("false")

/-- `ParamValue::from_str`: parse `s` at the value's own concrete type; on
success replace the value and report true, on failure keep the value
unchanged and report false. -/
def PValue.from_str (v : PValue) (s : String) : PValue × Bool :=
  match v with
  | .real _ =>
    match parseReal s with
    | some q => (.real q, true)
    | none => (v, false)
  | .str _ => (.str s, true)
  | .bool _ =>
    match parseBool s with
    | some b => (.bool b, true)
    | none => (v, false)

/-- The parse of a string at a given option kind: the typed view of what
`ParamValue::from_str` attempts (`s.parse::<T>()` at the value's own `T`). -/
def parseAt (k : PKind) (s : String) : Option PValue :=
  match k with
  | .real => (parseReal s).map .real
  | .str => some (.str s)
  | .bool => (parseBool s).map .bool

/-- The in-flight state of a parameter edit (`ParmEditState` in main.rs). -/
structure ParmEditState where
  buffer : String
  value : PValue
  is_valid : Bool
deriving DecidableEq

/-- `ParmEditState::new`: seed the buffer with the rendered value and
re-parse it. -/
def ParmEditState.new (value : PValue) : ParmEditState :=
  let buffer := value.render
  let p := value.from_str buffer
  { buffer := buffer, value := p.1, is_valid := p.2 }

/-- A sequence plus an optional selected index (`WrappingList` in
src/util.rs; the `tui::widgets::ListState` inside it is just its
`selected : Option usize`). -/
structure WrappingList (α : Type) where
  data : List α
  selected : Option ℕ
deriving DecidableEq

/-- `WrappingList::new`: select index 0 iff the data is non-empty. -/
def WrappingList.new {α : Type} (data : List α) : WrappingList α :=
  { data := data, selected := if data.isEmpty then none else some 0 }

/-- `WrappingList::down`: advance the selection modulo the length; no-op on an
empty list. -/
def WrappingList.down {α : Type} (l : WrappingList α) : WrappingList α :=
  if l.data.isEmpty then l
  else { l with selected := some ((l.selected.getD 0 + 1) % l.data.length) }

/-- `WrappingList::up`: retreat the selection modulo the length; no-op on an
empty list. -/
def WrappingList.up {α : Type} (l : WrappingList α) : WrappingList α :=
  if l.data.isEmpty then l
  else
    { l with
      selected := some ((l.selected.getD 0 + l.data.length - 1) % l.data.length) }

/-- `WrappingList::selected`: the selected element, if any.  (When the stored
index were out of range the Rust indexing would panic; the constructors keep
it in range, and the model returns `none` there.) -/
def WrappingList.selectedVal {α : Type} (l : WrappingList α) : Option α :=
  l.selected.bind (fun i => l.data[i]?)

/-- A geocoding result (`NominatimEntry` in src/lib.rs).  `boundingbox` holds
four decimal strings ordered [min-lat, max-lat, min-lon, max-lon]; the f64
`importance` score is modelled as a rational. -/
structure NominatimEntry where
  place_id : ℤ
  osm_type : String
  osm_id : ℤ
  display_name : String
  importance : ℚ
  boundingbox : Fin 4 → String
  category : String
deriving DecidableEq

/-- The whole mutable UI state (`State` in main.rs).  The spinner is modelled
by its glyph index alone: its wall-clock `last_tick` field never influences
any property below. -/
structure State where
  focus : WidgetId
  user_city : String
  places : WrappingList NominatimEntry
  params : WrappingList (String × PValue)
  worker_state : WorkerState
  fetching_spinner : ℕ
  parm_edit_state : Option ParmEditState
deriving DecidableEq

/-- `State::new`: initial focus on Search, the five default options. -/
def State.new : State :=
  { focus := .Search
    user_city := ("")
    places := WrappingList.new []
    params := WrappingList.new
      [(("Width"), .real 1920), (("Height"), .real 1080),
        (("Line width"), .real (3 / 10)), (("Background color"), .str ("none")),
        (("Open on save"), .bool true)]
    worker_state := .Idle
    fetching_spinner := 0
    parm_edit_state := none }

/-- `State::worker_busy`: only `Fetching` counts as busy. -/
def State.worker_busy (s : State) : Bool :=
  match s.worker_state with
  | .Fetching => true
  | .Idle => false
  | .Error _ => false

/-- `State::set_current_param`: replace the value of the selected option,
keeping its name; no-op without a selection. -/
def State.set_current_param (s : State) (value : PValue) : State :=
  match s.params.selected with
  | some i =>
    match s.params.data[i]? with
    | some kv =>
      { s with params := { s.params with data := s.params.data.set i (kv.1, value) } }
    | none => s
  | none => s

/-- The synchronous effect of `State::fetch`: mark the worker as fetching and
reset the spinner.  The spawned background task is `fetchCompletion` below. -/
def State.fetch_start (s : State) : State :=
  { s with worker_state := .Fetching, fetching_spinner := 0 }

/-- The `err` closure inside `State::fetch`: record the error message, move
focus to the Error panel and reset the spinner. -/
def State.fetch_err (s : State) (e : String) : State :=
  { s with worker_state := .Error e, focus := .Error, fetching_spinner := 0 }

/-- The body of the task spawned by `State::fetch`, entered once the awaited
future has resolved to `res`: on success set the worker Idle and run the
continuation on the shared state; when the future or the continuation fails,
record the error and focus the Error panel.  The continuation returns the
state it mutated together with its `Result`. -/
def fetchCompletion {T : Type} (s : State) (res : Except String T)
    (onSuccess : State → T → State × Except String Unit) : State :=
  match res with
  | .ok d =>
    let s1 := { s with worker_state := .Idle }
    match onSuccess s1 d with
    | (s2, .ok _) => s2
    | (s2, .error e) => s2.fetch_err e
  | .error e => s.fetch_err e

/-- The `on_success` continuation of the Search fetch in `handle_key_event`:
publish the place list and move focus to Places. -/
def searchOnSuccess (s : State) (cities : List NominatimEntry) :
    State × Except String Unit :=
  ({ s with places := WrappingList.new cities, focus := .Places }, .ok ())

/-- `edit_string` from main.rs: Backspace pops the last character, printable
keys append, anything else reports false. -/
def edit_string (s : String) (code : KeyCode) : String × Bool :=
  match code with
  | .Backspace => (s.dropRight 1, true)
  | .Char c => (s.push c, true)
  | _ => (s, false)

/-- `handle_key_event` from main.rs.  A busy worker swallows every key.  The
fetch calls contribute only their synchronous effect (`State.fetch_start`);
`unwrap` on a missing `parm_edit_state` is a panic, modelled as an error. -/
def handle_key_event (st : State) (code : KeyCode) : Except String State :=
  if st.worker_busy then .ok st
  else
    match st.focus with
    | .Search =>
      match code with
      | .Enter => if st.user_city ≠ ("") then .ok st.fetch_start else .ok st
      | c =>
        let r := edit_string st.user_city c
        if r.2 then .ok { st with user_city := r.1, places := WrappingList.new [] }
        else .ok st
    | .Places =>
      match code with
      | .Up | .Char 'k' => .ok { st with places := st.places.up }
      | .Down | .Char 'j' => .ok { st with places := st.places.down }
      | .Enter =>
        match st.places.selectedVal with
        | some _ => .ok st.fetch_start
        | none => .ok st
      | _ => .ok st
    | .Options =>
      match code with
      | .Up | .Char 'k' => .ok { st with params := st.params.up }
      | .Down | .Char 'j' => .ok { st with params := st.params.down }
      | .Enter =>
        match st.params.selectedVal with
        | some kv =>
          .ok { st with parm_edit_state := some (ParmEditState.new kv.2), focus := .ParamEdit }
        | none => .ok st
      | _ => .ok st
    | .ParamEdit =>
      match code with
      | .Enter =>
        match st.parm_edit_state with
        | none => .error ("unwrap on None: parm_edit_state")
        | some es =>
          if es.is_valid then
            .ok { st.set_current_param es.value with parm_edit_state := none, focus := .Options }
          else .ok st
      | .Esc => .ok { st with parm_edit_state := none, focus := .Options }
      | c =>
        match st.parm_edit_state with
        | none => .error ("unwrap on None: parm_edit_state")
        | some es =>
          let buf := (edit_string es.buffer c).1
          let p := es.value.from_str buf
          .ok { st with parm_edit_state := some { buffer := buf, value := p.1, is_valid := p.2 } }
    | .Help => .ok st
    | .Error =>
      match code with
      | .Enter => .ok { st with worker_state := .Idle, focus := .Search }
      | _ => .ok st

/-- The focus cycle of the global Tab keys. -/
def tab_order : List WidgetId := [.Search, .Places, .Options, .Help]

/-- The outcome of dispatching one event in `main_loop`. -/
inductive LoopStep where
  | exit
  | cont (st : State)
deriving DecidableEq

/-- One key event of `main_loop`: outside ParamEdit the quit keys exit and
Tab / BackTab rotate the focus through `tab_order` (the `unwrap` on the
position lookup panics when the focus is not in the cycle); every other key
goes to `handle_key_event`. -/
def dispatch (st : State) (code : KeyCode) (modifiers : Mods) :
    Except String LoopStep :=
  if st.focus ≠ .ParamEdit ∧ (code = .Esc ∨ (code = .Char 'c' ∧ modifiers = .control)) then
    .ok .exit
  else if st.focus ≠ .ParamEdit ∧ (code = .Tab ∨ code = .BackTab) then
    match tab_order.findIdx? (fun w => w = st.focus) with
    | none => .error ("unwrap on None: focus not in tab order")
    | some current =>
      let next := current + (if code = .Tab then 1 else tab_order.length - 1)
      .ok (.cont { st with focus := tab_order.getD (next % tab_order.length) .Search })
  else
    (handle_key_event st code).map .cont

/-- Earth radius in metres (`LatLon::EARTH_RADIUS`). -/
def EARTH_RADIUS : ℝ := 6378137

/-- `LatLon::to_xy`: the spherical-Mercator projection.  Rust's
`f64::to_radians` is multiplication by pi / 180. -/
noncomputable def to_xy (lat lon : ℝ) : ℝ × ℝ :=
  (lon * (Real.pi / 180) * EARTH_RADIUS,
   Real.log (Real.tan (lat * (Real.pi / 180) / 2 + Real.pi / 4)) * EARTH_RADIUS)

/-- The Overpass QL query that `fetch_roads` posts for a given entry.  The
final branch of the source's area-id selection is `unreachable`: this else
branch is only entered when `osm_type` is "relation" or "way". -/
def fetch_roads_query (e : NominatimEntry) : String :=
  if e.osm_type ≠ ("relation") ∧ e.osm_type ≠ ("way") then
    ("[out:json][timeout:60][bbox:") ++ e.boundingbox 0 ++ (",") ++
      e.boundingbox 2 ++ (",") ++ e.boundingbox 1 ++ (",") ++ e.boundingbox 3 ++
      ("];\n// way[highway~\"^(motorway|primary|secondary|tertiary)|residential\"];\nway[highway];\nout geom;")
  else
    ("[out:json][timeout:60];\narea(") ++
      toString (if e.osm_type = ("relation") then 3600000000 + e.osm_id else 2400000000 + e.osm_id) ++
      (")->.a;\n// way(area.a)[highway~\"^(motorway|primary|secondary|tertiary)|residential\"];\nway(area.a)[highway];\nout geom;")

/-- `pat` occurs as a contiguous substring of `s`. -/
def containsStr (s pat : String) : Prop := List.IsInfix pat.data s.data

/-- Modelled from the spec: the fixed tolerance epsilon = 3.0 of the simplifier
module `roads::simplify`, whose source file is absent from the crate sources. -/
noncomputable def EPS : ℝ := 3

/-- The fallback point for out-of-range indexing (never reached on the index
sets the simplifier produces). -/
def pZero : ℝ × ℝ := (0, 0)

/-- Modelled from the spec: the perpendicular distance from `p` to the
infinite line through `a` and `b`, computed by the cross-product formula
divided by the segment length, reducing to the Euclidean distance from `a`
when the segment is degenerate (`roads::simplify`, source absent). -/
noncomputable def perp_dist (p a b : ℝ × ℝ) : ℝ :=
  let dx := b.1 - a.1
  let dy := b.2 - a.2
  let len := Real.sqrt (dx ^ 2 + dy ^ 2)
  if len = 0 then Real.sqrt ((p.1 - a.1) ^ 2 + (p.2 - a.2) ^ 2)
  else |dx * (a.2 - p.2) - (a.1 - p.1) * dy| / len

/-- Modelled from the spec: the index `k` strictly inside `(i, j)` whose point
is farthest from the line through `P i` and `P j` (ties broken by the first
index achieving the maximum), together with that distance
(`roads::simplify`, source absent). -/
noncomputable def farthest (P : List (ℝ × ℝ)) (i j : ℕ) : ℕ × ℝ :=
  (List.range' (i + 1) (j - i - 1)).foldl
    (fun best k =>
      if best.2 < perp_dist (P.getD k pZero) (P.getD i pZero) (P.getD j pZero)
      then (k, perp_dist (P.getD k pZero) (P.getD i pZero) (P.getD j pZero))
      else best)
    (i + 1, perp_dist (P.getD (i + 1) pZero) (P.getD i pZero) (P.getD j pZero))

/-- Modelled from the spec: the worklist loop of the iterative
Ramer-Douglas-Peucker simplifier (`roads::simplify`, source absent).  Each
pending closed interval with interior points is examined: when the farthest
interior point reaches the tolerance it is inserted into the kept set and the
interval is split at it, otherwise the interval is discarded. -/
noncomputable def rdpLoop (P : List (ℝ × ℝ)) (wl : List (ℕ × ℕ)) (kept : Finset ℕ) :
    Finset ℕ :=
  match wl with
  | [] => kept
  | (i, j) :: rest =>
    if j ≤ i + 1 then rdpLoop P rest kept
    else
      if EPS ≤ (farthest P i j).2 then
        rdpLoop P ((i, (farthest P i j).1) :: ((farthest P i j).1, j) :: rest)
          (insert (farthest P i j).1 kept)
      else rdpLoop P rest kept
termination_by ((wl.map (fun ij => ij.2 - ij.1 - 1)).sum, wl.length)
decreasing_by
  · apply Prod.Lex.right'
    · simp only [List.map_cons, List.sum_cons]
      omega
    · simp
  · have step_mem : ∀ (f : ℕ × ℝ → ℕ → ℕ × ℝ), (∀ a x, (f a x).1 = a.1 ∨ (f a x).1 = x) →
        ∀ (l : List ℕ) (a : ℕ × ℝ), (l.foldl f a).1 = a.1 ∨ (l.foldl f a).1 ∈ l := by
      intro f hf l
      induction l with
      | nil => intro a; exact Or.inl rfl
      | cons x xs ih =>
        intro a
        rcases ih (f a x) with h | h
        · rcases hf a x with h2 | h2
          · exact Or.inl (by rw [List.foldl_cons, h, h2])
          · refine Or.inr ?_
            rw [List.foldl_cons, h, h2]
            exact List.mem_cons_self x xs
        · exact Or.inr (List.mem_cons_of_mem _ h)
    have hk : i + 1 ≤ (farthest P i j).1 ∧ (farthest P i j).1 < j := by
      have := step_mem
        (fun best k =>
          if best.2 < perp_dist (P.getD k pZero) (P.getD i pZero) (P.getD j pZero)
          then (k, perp_dist (P.getD k pZero) (P.getD i pZero) (P.getD j pZero))
          else best)
        (by
          intro a x
          dsimp only
          split
          · exact Or.inr rfl
          · exact Or.inl rfl)
        (List.range' (i + 1) (j - i - 1))
        (i + 1, perp_dist (P.getD (i + 1) pZero) (P.getD i pZero) (P.getD j pZero))
      rcases this with h | h
      · rw [farthest, h]
        omega
      · rw [farthest]
        rw [List.mem_range'_1] at h
        omega
    apply Prod.Lex.left
    simp only [List.map_cons, List.sum_cons]
    omega
  · apply Prod.Lex.left
    simp only [List.map_cons, List.sum_cons]
    omega

/-- Modelled from the spec: the kept-index set of the simplifier, starting
from the endpoints and the whole-range interval (`roads::simplify`, source
absent). -/
noncomputable def rdp_kept (P : List (ℝ × ℝ)) : Finset ℕ :=
  rdpLoop P [(0, P.length - 1)] {0, P.length - 1}

/-- Modelled from the spec: `roads::simplify::simplify`, whose source file is
absent from the crate sources.  A polyline of length at most 2 is returned
unchanged; otherwise the polyline is restricted to the kept indices of the
iterative Ramer-Douglas-Peucker loop, in ascending index order. -/
noncomputable def simplify (P : List (ℝ × ℝ)) : List (ℝ × ℝ) :=
  if P.length ≤ 2 then P
  else (P.enum.filter (fun q => decide (q.1 ∈ rdp_kept P))).map Prod.snd

/-- The document `dump_svg` writes: viewport, rect and one polyline element
per entry of `polylines`. -/
structure SvgDoc where
  view_w : ℝ
  view_h : ℝ
  stroke_width : ℝ
  background : String
  polylines : List (List (ℝ × ℝ))

/-- `dump_svg` from main.rs as a pure document builder.  Every path is
simplified and its y coordinates negated; when no point remains (the source's
infinity-seeded bounding-box fold then leaves min greater than max) no file
is created and `none` is returned, otherwise the document holds one polyline
element per path, each coordinate shifted by the bounding-box minimum and
scaled by the fitting factor.  (The two-decimal text formatting of the
coordinates is not modelled.) -/
noncomputable def dump_svg (w h : ℝ) (stroke_width : ℝ) (background : String)
    (paths : List (List (ℝ × ℝ))) : Option SvgDoc :=
  let processed := paths.map (fun p => (simplify p).map (fun q => (q.1, -q.2)))
  match processed.flatten with
  | [] => none
  | q :: rest =>
    let pts := q :: rest
    let min_x := (pts.map Prod.fst).foldl min q.1
    let max_x := (pts.map Prod.fst).foldl max q.1
    let min_y := (pts.map Prod.snd).foldl min q.2
    let max_y := (pts.map Prod.snd).foldl max q.2
    let sf := min (w / (max_x - min_x)) (h / (max_y - min_y))
    some
      { view_w := (max_x - min_x) * sf
        view_h := (max_y - min_y) * sf
        stroke_width := stroke_width
        background := background
        polylines := processed.map
          (fun p => p.map (fun q2 => ((q2.1 - min_x) * sf, (q2.2 - min_y) * sf))) }

/-- An index strictly inside a closed index interval. -/
def insideI (I : ℕ × ℕ) (m : ℕ) : Prop := I.1 < m ∧ m < I.2

/-- A removed index that the simplifier has settled: kept neighbours enclose
it with no kept index between them, the pair is not pending on the worklist,
and the point's distance from the neighbour line is within the tolerance. -/
def SettledGood (P : List (ℝ × ℝ)) (wl : List (ℕ × ℕ)) (kept : Finset ℕ) (m : ℕ) : Prop :=
  ∃ i j, i ∈ kept ∧ j ∈ kept ∧ i < m ∧ m < j ∧
    (∀ l ∈ kept, ¬(i < l ∧ l < j)) ∧ (i, j) ∉ wl ∧
    perp_dist (P.getD m pZero) (P.getD i pZero) (P.getD j pZero) ≤ EPS

/-- The loop invariant of `rdpLoop`: pending intervals are kept-gaps bounded
by the polyline, their interiors are pairwise disjoint, and every removed
index is either inside a pending interval or already settled. -/
structure RdpInv (P : List (ℝ × ℝ)) (wl : List (ℕ × ℕ)) (kept : Finset ℕ) : Prop where
  ends_kept : ∀ I ∈ wl, I.1 ∈ kept ∧ I.2 ∈ kept
  ends_lt : ∀ I ∈ wl, I.1 < I.2
  kept_ub : ∀ l ∈ kept, l < P.length
  no_kept_inside : ∀ I ∈ wl, ∀ l ∈ kept, ¬ insideI I l
  disj : wl.Pairwise (fun I J => ∀ m, insideI I m → ¬ insideI J m)
  covered : ∀ m, m < P.length → m ∉ kept →
    (∃ I ∈ wl, insideI I m) ∨ SettledGood P wl kept m

/-- A state whose worker is fetching, as left behind by a just-started fetch. -/
def fetchingState : State := { State.new with worker_state := .Fetching }

/-- A state as left behind by a failed fetch: the worker holds the error and
the Error panel has focus. -/
def errorState : State :=
  { State.new with worker_state := .Error ("boom"), focus := .Error }

/-- A state in the middle of editing the "Open on save" option: the buffer
holds the invalid prefix "tru" of "true". -/
def editingState : State :=
  { State.new with
    focus := .ParamEdit
    params := { State.new.params with selected := some 4 }
    parm_edit_state := some { buffer := ("tru"), value := .bool true, is_valid := false } }

/-- The geocoding entry of the spec's scenario S4: the Munich relation. -/
def munichEntry : NominatimEntry :=
  { place_id := 1
    osm_type := ("relation")
    osm_id := 62422
    display_name := ("Munich")
    importance := 1
    boundingbox := fun _ => ("")
    category := ("city") }

/-- A geocoding entry whose type is neither relation nor way (a node), with
the bounding box of the spec's scenario S5. -/
def nodeEntry : NominatimEntry :=
  { place_id := 2
    osm_type := ("node")
    osm_id := 7
    display_name := ("somewhere")
    importance := 1
    boundingbox := ![("48.1"), ("48.2"), ("11.5"), ("11.6")]
    category := ("place") }

/-! ## Theorems -/

theorem WrappingList.up_of_ne {α : Type} (l : WrappingList α) (h : l.data ≠ []) :
    l.up = { l with
      selected := some ((l.selected.getD 0 + l.data.length - 1) % l.data.length) } := by
  rw [WrappingList.up, if_neg]
  simpa using h

theorem WrappingList.down_of_ne {α : Type} (l : WrappingList α) (h : l.data ≠ []) :
    l.down = { l with
      selected := some ((l.selected.getD 0 + 1) % l.data.length) } := by
  rw [WrappingList.down, if_neg]
  simpa using h

theorem WrappingList.up_iter {α : Type} (l : WrappingList α) (n i : ℕ)
    (hn : l.data.length = n) (h0 : 0 < n) (hs : l.selected = some i) (hi : i < n) :
    ∀ k, (WrappingList.up^[k] l).data = l.data ∧
      (WrappingList.up^[k] l).selected = some ((i + k * (n - 1)) % n) := by
  intro k
  induction k with
  | zero => simpa [hs] using (Nat.mod_eq_of_lt hi).symm
  | succ k ih =>
    obtain ⟨hd, hsel⟩ := ih
    rw [Function.iterate_succ_apply']
    have hne : (WrappingList.up^[k] l).data ≠ [] := by
      rw [hd]
      intro hcon
      rw [hcon] at hn
      simp at hn
      omega
    rw [WrappingList.up_of_ne _ hne]
    refine ⟨hd, ?_⟩
    rw [hsel, hd, hn]
    simp only [Option.getD_some]
    congr 1
    have h1 : (i + k * (n - 1)) % n + n - 1 = (i + k * (n - 1)) % n + (n - 1) := by omega
    rw [h1, Nat.mod_add_mod]
    congr 1
    have : (k + 1) * (n - 1) = k * (n - 1) + (n - 1) := by ring
    omega

theorem WrappingList.down_iter {α : Type} (l : WrappingList α) (n i : ℕ)
    (hn : l.data.length = n) (h0 : 0 < n) (hs : l.selected = some i) (hi : i < n) :
    ∀ k, (WrappingList.down^[k] l).data = l.data ∧
      (WrappingList.down^[k] l).selected = some ((i + k) % n) := by
  intro k
  induction k with
  | zero => simpa [hs] using (Nat.mod_eq_of_lt hi).symm
  | succ k ih =>
    obtain ⟨hd, hsel⟩ := ih
    rw [Function.iterate_succ_apply']
    have hne : (WrappingList.down^[k] l).data ≠ [] := by
      rw [hd]
      intro hcon
      rw [hcon] at hn
      simp at hn
      omega
    rw [WrappingList.down_of_ne _ hne]
    refine ⟨hd, ?_⟩
    rw [hsel, hd, hn]
    simp only [Option.getD_some]
    rw [Nat.mod_add_mod, Nat.add_assoc]

/-- C8: for a non-empty wrapping list with a valid selection, up then down,
down then up, and n consecutive ups or downs all restore the selected index;
up and down leave an empty list unchanged. -/
theorem wrappingList_cycles {α : Type} :
    (∀ (l : WrappingList α) (n i : ℕ), l.data.length = n → 0 < n →
      l.selected = some i → i < n →
      l.up.down.selected = some i ∧ l.down.up.selected = some i ∧
        (WrappingList.up^[n] l).selected = some i ∧
        (WrappingList.down^[n] l).selected = some i) ∧
    (∀ l : WrappingList α, l.data = [] → l.up = l ∧ l.down = l) := by
  constructor
  · intro l n i hn h0 hs hi
    have hne : l.data ≠ [] := by
      intro hcon
      rw [hcon] at hn
      simp at hn
      omega
    refine ⟨?_, ?_, ?_, ?_⟩
    · rw [WrappingList.up_of_ne _ hne]
      have hne2 : ({ l with
          selected := some ((l.selected.getD 0 + l.data.length - 1) % l.data.length) } :
            WrappingList α).data ≠ [] := hne
      rw [WrappingList.down_of_ne _ hne2]
      simp only [hs, Option.getD_some, hn]
      congr 1
      have h1 : i + n - 1 = i + (n - 1) := by omega
      rw [h1, Nat.mod_add_mod]
      have h2 : i + (n - 1) + 1 = i + n := by omega
      rw [h2, Nat.add_mod_right, Nat.mod_eq_of_lt hi]
    · rw [WrappingList.down_of_ne _ hne]
      have hne2 : ({ l with
          selected := some ((l.selected.getD 0 + 1) % l.data.length) } :
            WrappingList α).data ≠ [] := hne
      rw [WrappingList.up_of_ne _ hne2]
      simp only [hs, Option.getD_some, hn]
      congr 1
      have h1 : (i + 1) % n + n - 1 = (i + 1) % n + (n - 1) := by omega
      rw [h1, Nat.mod_add_mod]
      have h2 : i + 1 + (n - 1) = i + n := by omega
      rw [h2, Nat.add_mod_right, Nat.mod_eq_of_lt hi]
    · rw [(WrappingList.up_iter l n i hn h0 hs hi n).2]
      congr 1
      rw [Nat.add_mul_mod_self_left, Nat.mod_eq_of_lt hi]
    · rw [(WrappingList.down_iter l n i hn h0 hs hi n).2]
      congr 1
      rw [Nat.add_mod_right, Nat.mod_eq_of_lt hi]
  · intro l h
    constructor
    · rw [WrappingList.up, if_pos]
      simp [h]
    · rw [WrappingList.down, if_pos]
      simp [h]

/-- C8 witness: the cycle laws evaluated on a concrete three-element list. -/
theorem wrappingList_cycles_witness :
    ((WrappingList.mk [10, 20, 30] (some 1)).up.down.selected = some 1 ∧
      (WrappingList.mk [10, 20, 30] (some 1)).down.up.selected = some 1 ∧
      (WrappingList.up^[3] (WrappingList.mk [10, 20, 30] (some 1))).selected = some 1 ∧
      (WrappingList.down^[3] (WrappingList.mk [10, 20, 30] (some 1))).selected = some 1) ∧
    ((WrappingList.mk ([] : List ℕ) none).up = WrappingList.mk [] none ∧
      (WrappingList.mk ([] : List ℕ) none).down = WrappingList.mk [] none) := by
  constructor
  · exact (wrappingList_cycles.1 (WrappingList.mk [10, 20, 30] (some 1)) 3 1
      (by decide) (by decide) rfl (by decide))
  · exact wrappingList_cycles.2 (WrappingList.mk [] none) rfl

/-- C10: in the Search panel with an empty query buffer and a worker that is
not busy, Backspace leaves the buffer empty yet still resets the Places list
to a new empty list, discarding previous results and their selection. -/
theorem backspace_on_empty_search_resets_places (st : State)
    (hf : st.focus = .Search) (hc : st.user_city = ("")) (hw : st.worker_busy = false) :
    handle_key_event st .Backspace = .ok { st with places := WrappingList.new [] } ∧
    ({ st with places := WrappingList.new [] } : State).user_city = ("") := by
  obtain ⟨f, city, pl, pr, w, sp, pe⟩ := st
  simp only at hf hc
  subst hf
  subst hc
  refine ⟨?_, rfl⟩
  cases w with
  | Idle => rfl
  | Fetching => simp [State.worker_busy] at hw
  | Error e => rfl

/-- C10 witness: Backspace on the freshly started program (empty buffer,
focus on Search) resets the Places list. -/
theorem backspace_on_empty_search_resets_places_witness :
    handle_key_event State.new .Backspace =
      .ok { State.new with places := WrappingList.new [] } :=
  (backspace_on_empty_search_resets_places State.new rfl rfl rfl).1

/-- C2: once the future awaited by the task spawned by `State::fetch`
completes, the shared state ends with an idle worker when the future and the
`on_success` continuation both succeed (the program's continuations never
touch the worker state, which the hypothesis `hw` records), and ends with the
error message stored and the Error panel focused when either fails. -/
theorem fetchCompletion_spec {T : Type} (st : State) (res : Except String T)
    (onSuccess : State → T → State × Except String Unit)
    (hw : ∀ s d, ((onSuccess s d).1).worker_state = s.worker_state) :
    (∀ d, res = .ok d →
      ((onSuccess { st with worker_state := .Idle } d).2 = .ok ()) →
      fetchCompletion st res onSuccess = (onSuccess { st with worker_state := .Idle } d).1 ∧
        (fetchCompletion st res onSuccess).worker_state = .Idle) ∧
    (∀ e, res = .error e →
      (fetchCompletion st res onSuccess).worker_state = .Error e ∧
        (fetchCompletion st res onSuccess).focus = .Error) ∧
    (∀ d e, res = .ok d →
      ((onSuccess { st with worker_state := .Idle } d).2 = .error e) →
      (fetchCompletion st res onSuccess).worker_state = .Error e ∧
        (fetchCompletion st res onSuccess).focus = .Error) := by
  refine ⟨?_, ?_, ?_⟩
  · intro d hres hok
    subst hres
    have hws := hw { st with worker_state := .Idle } d
    rcases ho : onSuccess { st with worker_state := .Idle } d with ⟨s2, r⟩
    rw [ho] at hok hws
    simp only at hok hws
    subst hok
    simp only [fetchCompletion, ho, hws]
    exact ⟨trivial, trivial⟩
  · intro e hres
    subst hres
    simp only [fetchCompletion, State.fetch_err]
    exact ⟨trivial, trivial⟩
  · intro d e hres herr
    subst hres
    rcases ho : onSuccess { st with worker_state := .Idle } d with ⟨s2, r⟩
    rw [ho] at herr
    simp only at herr
    subst herr
    simp only [fetchCompletion, ho, State.fetch_err]
    exact ⟨trivial, trivial⟩

/-- C2 witness: a successful search fetch on the initial state publishes the
continuation's state and ends Idle. -/
theorem fetchCompletion_spec_witness :
    fetchCompletion State.new (Except.ok ([] : List NominatimEntry)) searchOnSuccess
        = (searchOnSuccess { State.new with worker_state := .Idle } []).1 ∧
      (fetchCompletion State.new (Except.ok ([] : List NominatimEntry))
          searchOnSuccess).worker_state = .Idle :=
  (fetchCompletion_spec State.new (Except.ok []) searchOnSuccess
      (fun _ _ => rfl)).1 [] rfl rfl

/-- C3 counterexample: with the worker fetching, pressing Tab (which is not an
interrupt key) still changes the UI state: the focus moves from Search to
Places. -/
theorem dispatch_tab_while_fetching_moves_focus :
    fetchingState.worker_state = .Fetching ∧
      dispatch fetchingState .Tab .none =
        .ok (.cont { fetchingState with focus := .Places }) ∧
      ({ fetchingState with focus := .Places } : State) ≠ fetchingState := by
  refine ⟨rfl, by rfl, by decide⟩

/-- C3 (amended): while a fetch is in flight, every key other than the
interrupt keys (Esc, Ctrl-C) and the global focus-cycling keys (Tab,
BackTab) leaves the UI state unchanged. -/
theorem dispatch_ignores_keys_while_fetching (st : State) (code : KeyCode)
    (modifiers : Mods) (hw : st.worker_state = .Fetching) (h1 : code ≠ .Esc)
    (h2 : ¬(code = .Char ('c') ∧ modifiers = .control)) (h3 : code ≠ .Tab)
    (h4 : code ≠ .BackTab) :
    dispatch st code modifiers = .ok (.cont st) := by
  have hb : st.worker_busy = true := by
    rw [State.worker_busy, hw]
  have hq : ¬(st.focus ≠ .ParamEdit ∧
      (code = .Esc ∨ (code = .Char ('c') ∧ modifiers = .control))) := by
    rintro ⟨-, h | h⟩
    · exact h1 h
    · exact h2 h
  have ht : ¬(st.focus ≠ .ParamEdit ∧ (code = .Tab ∨ code = .BackTab)) := by
    rintro ⟨-, h | h⟩
    · exact h3 h
    · exact h4 h
  rw [dispatch, if_neg hq, if_neg ht]
  have hke : handle_key_event st code = .ok st := by
    delta handle_key_event
    rw [if_pos hb]
  rw [hke]
  rfl

/-- C3 witness: the per-panel key j is swallowed while the worker fetches. -/
theorem dispatch_ignores_keys_while_fetching_witness :
    dispatch fetchingState (.Char ('j')) .none = .ok (.cont fetchingState) :=
  dispatch_ignores_keys_while_fetching fetchingState (.Char ('j')) .none rfl
    (by decide) (by decide) (by decide) (by decide)

/-- C4: pressing Tab while the Error panel has focus (reachable after any
failed fetch, with the worker no longer busy) panics in the source: the
position of the focus in the tab order is unwrapped but the Error panel is
not part of the cycle.  From a focus inside the cycle the same key moves the
focus to the next element, as the claim describes. -/
theorem dispatch_tab_on_error_panics :
    errorState.focus = .Error ∧ errorState.worker_busy = false ∧
      dispatch errorState .Tab .none =
        .error ("unwrap on None: focus not in tab order") ∧
      dispatch State.new .Tab .none = .ok (.cont { State.new with focus := .Places }) := by
  exact ⟨rfl, rfl, by rfl, by rfl⟩

theorem containsStr_of_eq (s pre pat suf : String) (h : s = pre ++ pat ++ suf) :
    containsStr s pat := by
  refine ⟨pre.data, suf.data, ?_⟩
  rw [h, String.data_append, String.data_append]

theorem containsStr_mid (pre a t b suf : String) :
    containsStr (pre ++ a ++ t ++ (b ++ suf)) (a ++ t ++ b) := by
  refine ⟨pre.data, suf.data, ?_⟩
  simp [String.data_append, List.append_assoc]

theorem containsStr_mid4 (pre a t1 c1 t2 c2 t3 c3 t4 b suf : String) :
    containsStr (pre ++ a ++ t1 ++ c1 ++ t2 ++ c2 ++ t3 ++ c3 ++ t4 ++ (b ++ suf))
      (a ++ t1 ++ c1 ++ t2 ++ c2 ++ t3 ++ c3 ++ t4 ++ b) := by
  refine ⟨pre.data, suf.data, ?_⟩
  simp [String.data_append, List.append_assoc]

/-- C1: the Overpass query built by `fetch_roads` contains an area clause with
area-id 3,600,000,000 + osm_id when the entry's type is "relation", an area
clause with area-id 2,400,000,000 + osm_id when it is "way", and otherwise a
bbox clause listing boundingbox[0], [2], [1], [3] in that order. -/
theorem fetch_roads_query_clauses (e : NominatimEntry) :
    (e.osm_type = ("relation") →
      containsStr (fetch_roads_query e)
        (("area(") ++ toString (3600000000 + e.osm_id) ++ (")->.a;"))) ∧
    (e.osm_type = ("way") →
      containsStr (fetch_roads_query e)
        (("area(") ++ toString (2400000000 + e.osm_id) ++ (")->.a;"))) ∧
    (e.osm_type ≠ ("relation") → e.osm_type ≠ ("way") →
      containsStr (fetch_roads_query e)
        (("[bbox:") ++ e.boundingbox 0 ++ (",") ++ e.boundingbox 2 ++ (",") ++
          e.boundingbox 1 ++ (",") ++ e.boundingbox 3 ++ ("]"))) := by
  refine ⟨?_, ?_, ?_⟩
  · intro h
    rw [fetch_roads_query, if_neg (by simp [h]), if_pos h]
    rw [show (("[out:json][timeout:60];\narea(") : String) =
        ("[out:json][timeout:60];\n") ++ ("area(") from rfl]
    rw [show ((")->.a;\n// way(area.a)[highway~\"^(motorway|primary|secondary|tertiary)|residential\"];\nway(area.a)[highway];\nout geom;") : String) =
        ((")->.a;")) ++ ("\n// way(area.a)[highway~\"^(motorway|primary|secondary|tertiary)|residential\"];\nway(area.a)[highway];\nout geom;") from rfl]
    exact containsStr_mid _ _ _ _ _
  · intro h
    have hne : e.osm_type ≠ ("relation") := by
      rw [h]
      decide
    rw [fetch_roads_query, if_neg (by simp [h]), if_neg hne]
    rw [show (("[out:json][timeout:60];\narea(") : String) =
        ("[out:json][timeout:60];\n") ++ ("area(") from rfl]
    rw [show ((")->.a;\n// way(area.a)[highway~\"^(motorway|primary|secondary|tertiary)|residential\"];\nway(area.a)[highway];\nout geom;") : String) =
        ((")->.a;")) ++ ("\n// way(area.a)[highway~\"^(motorway|primary|secondary|tertiary)|residential\"];\nway(area.a)[highway];\nout geom;") from rfl]
    exact containsStr_mid _ _ _ _ _
  · intro h1 h2
    rw [fetch_roads_query, if_pos ⟨h1, h2⟩]
    rw [show (("[out:json][timeout:60][bbox:") : String) =
        ("[out:json][timeout:60]") ++ ("[bbox:") from rfl]
    rw [show (("];\n// way[highway~\"^(motorway|primary|secondary|tertiary)|residential\"];\nway[highway];\nout geom;") : String) =
        ("]") ++ (";\n// way[highway~\"^(motorway|primary|secondary|tertiary)|residential\"];\nway[highway];\nout geom;") from rfl]
    exact containsStr_mid4 _ _ _ _ _ _ _ _ _ _ _

/-- C1 witness: the Munich relation produces the area clause of scenario S4
and a node entry produces the bbox clause of scenario S5. -/
theorem fetch_roads_query_clauses_witness :
    containsStr (fetch_roads_query munichEntry) (("area(3600062422)->.a;")) ∧
    containsStr (fetch_roads_query nodeEntry) (("[bbox:48.1,11.5,48.2,11.6]")) := by
  constructor
  · have h := (fetch_roads_query_clauses munichEntry).1 rfl
    have he : (("area(") ++ toString ((3600000000 : ℤ) + munichEntry.osm_id) ++ (")->.a;")) =
        ("area(3600062422)->.a;") := by decide
    rw [he] at h
    exact h
  · have h := (fetch_roads_query_clauses nodeEntry).2.2 (by decide) (by decide)
    have he : (("[bbox:") ++ nodeEntry.boundingbox 0 ++ (",") ++ nodeEntry.boundingbox 2 ++
        (",") ++ nodeEntry.boundingbox 1 ++ (",") ++ nodeEntry.boundingbox 3 ++ ("]")) =
        ("[bbox:48.1,11.5,48.2,11.6]") := by decide
    rw [he] at h
    exact h

/-- C7: during a parameter edit every non-commit keystroke re-parses the
edited buffer against the working value's own type, a failed parse clears the
validity flag and keeps the working value, a successful parse sets the flag
and replaces the working value by a value of the same type, Enter while valid
commits the working value into the selected option and returns focus to
Options, and Esc discards the edit. -/
theorem param_edit_behaviour (st : State) (es : ParmEditState) (code : KeyCode)
    (hf : st.focus = .ParamEdit) (hpe : st.parm_edit_state = some es)
    (hw : st.worker_busy = false) :
    (code ≠ .Enter → code ≠ .Esc →
      handle_key_event st code = .ok { st with parm_edit_state := some ⟨(edit_string es.buffer code).1, (es.value.from_str (edit_string es.buffer code).1).1, (es.value.from_str (edit_string es.buffer code).1).2⟩ }) ∧
    (∀ (v : PValue) (s : String), parseAt v.kind s = none → v.from_str s = (v, false)) ∧
    (∀ (v w : PValue) (s : String), parseAt v.kind s = some w →
      v.from_str s = (w, true) ∧ w.kind = v.kind) ∧
    (code = .Enter → es.is_valid = true →
      handle_key_event st code =
        .ok { st.set_current_param es.value with parm_edit_state := none, focus := .Options }) ∧
    (code = .Esc →
      handle_key_event st code = .ok { st with parm_edit_state := none, focus := .Options }) := by
  obtain ⟨f, city, pl, pr, w, sp, pe⟩ := st
  simp only at hf hpe
  subst hf
  subst hpe
  refine ⟨?_, ?_, ?_, ?_, ?_⟩
  · intro hEnter hEsc
    cases w with
    | Fetching => simp [State.worker_busy] at hw
    | Idle =>
      cases code with
      | Enter => exact absurd rfl hEnter
      | Esc => exact absurd rfl hEsc
      | Tab => rfl
      | BackTab => rfl
      | Backspace => rfl
      | Up => rfl
      | Down => rfl
      | Char c => rfl
      | Other => rfl
    | Error e =>
      cases code with
      | Enter => exact absurd rfl hEnter
      | Esc => exact absurd rfl hEsc
      | Tab => rfl
      | BackTab => rfl
      | Backspace => rfl
      | Up => rfl
      | Down => rfl
      | Char c => rfl
      | Other => rfl
  · intro v s h
    cases v with
    | real q =>
      rcases hp : parseReal s with - | q2
      · simp [PValue.from_str, hp]
      · simp [parseAt, PValue.kind, hp] at h
    | str s2 => simp [parseAt, PValue.kind] at h
    | bool b =>
      rcases hp : parseBool s with - | b2
      · simp [PValue.from_str, hp]
      · simp [parseAt, PValue.kind, hp] at h
  · intro v w2 s h
    cases v with
    | real q =>
      rcases hp : parseReal s with - | q2
      · simp [parseAt, PValue.kind, hp] at h
      · simp only [parseAt, PValue.kind, hp] at h
        simp only [Option.map_some', Option.some.injEq] at h
        subst h
        exact ⟨by simp [PValue.from_str, hp], rfl⟩
    | str s2 =>
      simp only [parseAt, PValue.kind, Option.some.injEq] at h
      subst h
      exact ⟨by simp [PValue.from_str], rfl⟩
    | bool b =>
      rcases hp : parseBool s with - | b2
      · simp [parseAt, PValue.kind, hp] at h
      · simp only [parseAt, PValue.kind, hp] at h
        simp only [Option.map_some', Option.some.injEq] at h
        subst h
        exact ⟨by simp [PValue.from_str, hp], rfl⟩
  · intro hc hv
    subst hc
    obtain ⟨buf, v, valid⟩ := es
    simp only at hv
    subst hv
    cases w with
    | Fetching => simp [State.worker_busy] at hw
    | Idle => rfl
    | Error e => rfl
  · intro hc
    subst hc
    cases w with
    | Fetching => simp [State.worker_busy] at hw
    | Idle => rfl
    | Error e => rfl

/-- C7 witness: typing the final e of "true" into the editor of the
"Open on save" option parses successfully, updates the working value and sets
the validity flag. -/
theorem param_edit_behaviour_witness :
    handle_key_event editingState (.Char ('e')) =
      .ok { editingState with parm_edit_state := some ⟨("true"), .bool true, true⟩ } := by
  have h := (param_edit_behaviour editingState
      { buffer := ("tru"), value := .bool true, is_valid := false }
      (.Char ('e')) rfl rfl rfl).1 (by decide) (by decide)
  exact h

theorem foldl_best_snd_ge (g : ℕ → ℝ) :
    ∀ (l : List ℕ) (acc : ℕ × ℝ),
      acc.2 ≤ (l.foldl (fun best k => if best.2 < g k then (k, g k) else best) acc).2 ∧
      ∀ m ∈ l, g m ≤ (l.foldl (fun best k => if best.2 < g k then (k, g k) else best) acc).2 := by
  intro l
  induction l with
  | nil =>
    intro acc
    exact ⟨le_refl _, by simp⟩
  | cons x xs ih =>
    intro acc
    rw [List.foldl_cons]
    have h1 : acc.2 ≤ (if acc.2 < g x then (x, g x) else acc).2 := by
      by_cases hc : acc.2 < g x
      · rw [if_pos hc]
        exact le_of_lt hc
      · rw [if_neg hc]
    have h2 : g x ≤ (if acc.2 < g x then (x, g x) else acc).2 := by
      by_cases hc : acc.2 < g x
      · rw [if_pos hc]
      · rw [if_neg hc]
        exact le_of_not_lt hc
    obtain ⟨ha, hb⟩ := ih (if acc.2 < g x then (x, g x) else acc)
    refine ⟨le_trans h1 ha, ?_⟩
    intro m hm
    rcases List.mem_cons.mp hm with h | h
    · rw [h]
      exact le_trans h2 ha
    · exact hb m h

theorem foldl_best_fst_mem (g : ℕ → ℝ) :
    ∀ (l : List ℕ) (acc : ℕ × ℝ),
      (l.foldl (fun best k => if best.2 < g k then (k, g k) else best) acc).1 = acc.1 ∨
      (l.foldl (fun best k => if best.2 < g k then (k, g k) else best) acc).1 ∈ l := by
  intro l
  induction l with
  | nil =>
    intro acc
    exact Or.inl rfl
  | cons x xs ih =>
    intro acc
    rw [List.foldl_cons]
    by_cases hc : acc.2 < g x
    · rw [if_pos hc]
      rcases ih (x, g x) with h | h
      · exact Or.inr (by rw [h]; exact List.mem_cons_self x xs)
      · exact Or.inr (List.mem_cons_of_mem _ h)
    · rw [if_neg hc]
      rcases ih acc with h | h
      · exact Or.inl h
      · exact Or.inr (List.mem_cons_of_mem _ h)

theorem farthest_fst_bounds (P : List (ℝ × ℝ)) (i j : ℕ) (h : i + 1 < j) :
    i < (farthest P i j).1 ∧ (farthest P i j).1 < j := by
  have key := foldl_best_fst_mem
    (fun k => perp_dist (P.getD k pZero) (P.getD i pZero) (P.getD j pZero))
    (List.range' (i + 1) (j - i - 1))
    (i + 1, perp_dist (P.getD (i + 1) pZero) (P.getD i pZero) (P.getD j pZero))
  rcases key with hk | hk
  · rw [farthest, hk]
    omega
  · rw [List.mem_range'_1] at hk
    rw [farthest]
    omega

theorem farthest_snd_ge (P : List (ℝ × ℝ)) (i j m : ℕ) (h1 : i < m) (h2 : m < j) :
    perp_dist (P.getD m pZero) (P.getD i pZero) (P.getD j pZero) ≤ (farthest P i j).2 := by
  have key := foldl_best_snd_ge
    (fun k => perp_dist (P.getD k pZero) (P.getD i pZero) (P.getD j pZero))
    (List.range' (i + 1) (j - i - 1))
    (i + 1, perp_dist (P.getD (i + 1) pZero) (P.getD i pZero) (P.getD j pZero))
  have hm : m ∈ List.range' (i + 1) (j - i - 1) := by
    rw [List.mem_range'_1]
    omega
  exact key.2 m hm

theorem gaps_disjoint (kept : Finset ℕ) {a b i j m : ℕ}
    (ha : a ∈ kept) (hb : b ∈ kept) (hab : ∀ l ∈ kept, ¬(a < l ∧ l < b))
    (hi : i ∈ kept) (hj : j ∈ kept) (hij : ∀ l ∈ kept, ¬(i < l ∧ l < j))
    (hne : (a, b) ≠ (i, j)) (hm1 : a < m) (hm2 : m < b) (hm3 : i < m) (hm4 : m < j) :
    False := by
  have h1 := hij a ha
  have h2 := hab i hi
  have h3 := hij b hb
  have h4 := hab j hj
  have : a = i ∧ b = j := by omega
  exact hne (by rw [this.1, this.2])

theorem SettledGood.mono_wl {P : List (ℝ × ℝ)} {wl wl' : List (ℕ × ℕ)}
    {kept : Finset ℕ} {m : ℕ} (hsub : ∀ x ∈ wl', x ∈ wl)
    (h : SettledGood P wl kept m) : SettledGood P wl' kept m := by
  obtain ⟨i, j, h1, h2, h3, h4, h5, h6, h7⟩ := h
  exact ⟨i, j, h1, h2, h3, h4, h5, fun hc => h6 (hsub _ hc), h7⟩

theorem filter_getLast?_of_pos {α : Type} (l : List α) (f : α → Bool) (x : α)
    (hl : l.getLast? = some x) (hf : f x = true) : (l.filter f).getLast? = some x := by
  rw [List.getLast?_eq_head?_reverse] at hl
  rw [List.getLast?_eq_head?_reverse, ← List.filter_reverse]
  cases hr : l.reverse with
  | nil =>
    rw [hr] at hl
    simp at hl
  | cons y ys =>
    rw [hr] at hl
    simp only [List.head?_cons, Option.some.injEq] at hl
    subst hl
    rw [List.filter_cons, if_pos hf]
    rfl

theorem filter_head?_of_pos {α : Type} (l : List α) (f : α → Bool) (x : α)
    (hl : l.head? = some x) (hf : f x = true) : (l.filter f).head? = some x := by
  cases l with
  | nil => simp at hl
  | cons y ys =>
    simp only [List.head?_cons, Option.some.injEq] at hl
    subst hl
    rw [List.filter_cons, if_pos hf]
    rfl

theorem enum_head? {α : Type} (l : List α) : l.enum.head? = l.head?.map (fun x => (0, x)) := by
  cases l with
  | nil => rfl
  | cons y ys => rw [List.enum_cons]; rfl

theorem enum_getLast? {α : Type} (l : List α) :
    l.enum.getLast? = l.getLast?.map (fun x => (l.length - 1, x)) := by
  rw [List.getLast?_eq_getElem? l.enum, List.getLast?_eq_getElem? l, List.enum_length,
    List.getElem?_enum]

theorem rdpLoop_subset (P : List (ℝ × ℝ)) (wl : List (ℕ × ℕ)) (kept : Finset ℕ) :
    kept ⊆ rdpLoop P wl kept := by
  induction wl, kept using rdpLoop.induct P with
  | case1 kept =>
    rw [rdpLoop]
  | case2 kept i j rest h ih =>
    rw [rdpLoop]
    simp only [if_pos h]
    exact ih
  | case3 kept i j rest h h2 ih =>
    rw [rdpLoop]
    simp only [if_neg h, if_pos h2]
    exact fun x hx => ih (Finset.mem_insert_of_mem hx)
  | case4 kept i j rest h h2 ih =>
    rw [rdpLoop]
    simp only [if_neg h, if_neg h2]
    exact ih

theorem rdpLoop_settles (P : List (ℝ × ℝ)) (wl : List (ℕ × ℕ)) (kept : Finset ℕ) :
    RdpInv P wl kept →
      (∀ l ∈ rdpLoop P wl kept, l < P.length) ∧
      (∀ m, m < P.length → m ∉ rdpLoop P wl kept →
        SettledGood P [] (rdpLoop P wl kept) m) := by
  induction wl, kept using rdpLoop.induct P with
  | case1 kept =>
    intro hinv
    rw [rdpLoop]
    refine ⟨hinv.kept_ub, ?_⟩
    intro m hm hmk
    rcases hinv.covered m hm hmk with ⟨I, hI, -⟩ | hs
    · exact absurd hI (List.not_mem_nil I)
    · exact hs
  | case2 kept i j rest h ih =>
    intro hinv
    rw [rdpLoop]
    simp only [if_pos h]
    apply ih
    refine ⟨?_, ?_, hinv.kept_ub, ?_, hinv.disj.of_cons, ?_⟩
    · exact fun I hI => hinv.ends_kept I (List.mem_cons_of_mem _ hI)
    · exact fun I hI => hinv.ends_lt I (List.mem_cons_of_mem _ hI)
    · exact fun I hI => hinv.no_kept_inside I (List.mem_cons_of_mem _ hI)
    · intro m hm hmk
      rcases hinv.covered m hm hmk with ⟨I, hI, hin⟩ | hs
      · rcases List.mem_cons.mp hI with rfl | hI2
        · exact absurd hin (by simp only [insideI]; omega)
        · exact Or.inl ⟨I, hI2, hin⟩
      · exact Or.inr (hs.mono_wl (fun x hx => List.mem_cons_of_mem _ hx))
  | case3 kept i j rest h h2 ih =>
    intro hinv
    rw [rdpLoop]
    simp only [if_neg h, if_pos h2]
    apply ih
    obtain ⟨hik, hkj⟩ := farthest_fst_bounds P i j (by omega)
    have hknotin : (farthest P i j).1 ∉ kept := fun hc =>
      hinv.no_kept_inside (i, j) (List.mem_cons_self _ _) _ hc ⟨hik, hkj⟩
    have hjmem := hinv.ends_kept (i, j) (List.mem_cons_self _ _)
    have hrel := (List.pairwise_cons.mp hinv.disj).1
    have htail := (List.pairwise_cons.mp hinv.disj).2
    refine ⟨?_, ?_, ?_, ?_, ?_, ?_⟩
    · intro I hI
      rcases List.mem_cons.mp hI with rfl | hI
      · exact ⟨Finset.mem_insert_of_mem hjmem.1, Finset.mem_insert_self _ _⟩
      rcases List.mem_cons.mp hI with rfl | hI
      · exact ⟨Finset.mem_insert_self _ _, Finset.mem_insert_of_mem hjmem.2⟩
      · obtain ⟨ha, hb⟩ := hinv.ends_kept I (List.mem_cons_of_mem _ hI)
        exact ⟨Finset.mem_insert_of_mem ha, Finset.mem_insert_of_mem hb⟩
    · intro I hI
      rcases List.mem_cons.mp hI with rfl | hI
      · exact hik
      rcases List.mem_cons.mp hI with rfl | hI
      · exact hkj
      · exact hinv.ends_lt I (List.mem_cons_of_mem _ hI)
    · intro l hl
      rcases Finset.mem_insert.mp hl with rfl | hl
      · exact lt_trans hkj (hinv.kept_ub _ hjmem.2)
      · exact hinv.kept_ub l hl
    · intro I hI l hl
      rcases List.mem_cons.mp hI with rfl | hI
      · rcases Finset.mem_insert.mp hl with rfl | hl
        · simp only [insideI]
          omega
        · intro hc
          exact hinv.no_kept_inside (i, j) (List.mem_cons_self _ _) l hl
            ⟨hc.1, lt_trans hc.2 hkj⟩
      rcases List.mem_cons.mp hI with rfl | hI
      · rcases Finset.mem_insert.mp hl with rfl | hl
        · simp only [insideI]
          omega
        · intro hc
          exact hinv.no_kept_inside (i, j) (List.mem_cons_self _ _) l hl
            ⟨lt_trans hik hc.1, hc.2⟩
      · rcases Finset.mem_insert.mp hl with rfl | hl
        · exact hrel I hI _ ⟨hik, hkj⟩
        · exact hinv.no_kept_inside I (List.mem_cons_of_mem _ hI) l hl
    · refine List.pairwise_cons.mpr ⟨?_, List.pairwise_cons.mpr ⟨?_, htail⟩⟩
      · intro J hJ m hm
        rcases List.mem_cons.mp hJ with rfl | hJ
        · simp only [insideI] at hm ⊢
          omega
        · exact hrel J hJ m ⟨hm.1, lt_trans hm.2 hkj⟩
      · intro J hJ m hm
        exact hrel J hJ m ⟨lt_trans hik hm.1, hm.2⟩
    · intro m hm hmk
      have hmk2 : m ∉ kept := fun hc => hmk (Finset.mem_insert_of_mem hc)
      have hmnek : m ≠ (farthest P i j).1 := fun hc =>
        hmk (hc ▸ Finset.mem_insert_self _ _)
      rcases hinv.covered m hm hmk2 with ⟨I, hI, hin⟩ | hs
      · rcases List.mem_cons.mp hI with rfl | hI
        · rcases lt_or_gt_of_ne hmnek with hlt | hgt
          · exact Or.inl ⟨(i, (farthest P i j).1), List.mem_cons_self _ _, ⟨hin.1, hlt⟩⟩
          · exact Or.inl ⟨((farthest P i j).1, j),
              List.mem_cons_of_mem _ (List.mem_cons_self _ _), ⟨hgt, hin.2⟩⟩
        · exact Or.inl ⟨I, List.mem_cons_of_mem _ (List.mem_cons_of_mem _ hI), hin⟩
      · obtain ⟨a, b, ha, hb, ham, hmb, hgap, hnotwl, hdist⟩ := hs
        have hne : (a, b) ≠ (i, j) := fun hc => hnotwl (hc ▸ List.mem_cons_self _ _)
        have hknotinab : ¬(a < (farthest P i j).1 ∧ (farthest P i j).1 < b) := by
          intro hc
          exact gaps_disjoint kept ha hb hgap hjmem.1 hjmem.2
            (fun l hl => hinv.no_kept_inside (i, j) (List.mem_cons_self _ _) l hl) hne
            hc.1 hc.2 hik hkj
        refine Or.inr ⟨a, b, Finset.mem_insert_of_mem ha, Finset.mem_insert_of_mem hb,
          ham, hmb, ?_, ?_, hdist⟩
        · intro l hl
          rcases Finset.mem_insert.mp hl with rfl | hl
          · exact hknotinab
          · exact hgap l hl
        · intro hc
          rcases List.mem_cons.mp hc with hc1 | hc
          · have hbk : b = (farthest P i j).1 := congrArg Prod.snd hc1
            exact hknotin (hbk ▸ hb)
          rcases List.mem_cons.mp hc with hc1 | hc
          · have hak : a = (farthest P i j).1 := congrArg Prod.fst hc1
            exact hknotin (hak ▸ ha)
          · exact hnotwl (List.mem_cons_of_mem _ hc)
  | case4 kept i j rest h h2 ih =>
    intro hinv
    rw [rdpLoop]
    simp only [if_neg h, if_neg h2]
    apply ih
    refine ⟨?_, ?_, hinv.kept_ub, ?_, hinv.disj.of_cons, ?_⟩
    · exact fun I hI => hinv.ends_kept I (List.mem_cons_of_mem _ hI)
    · exact fun I hI => hinv.ends_lt I (List.mem_cons_of_mem _ hI)
    · exact fun I hI => hinv.no_kept_inside I (List.mem_cons_of_mem _ hI)
    · intro m hm hmk
      rcases hinv.covered m hm hmk with ⟨I, hI, hin⟩ | hs
      · rcases List.mem_cons.mp hI with rfl | hI2
        · have hd := farthest_snd_ge P i j m hin.1 hin.2
          have hd2 : perp_dist (P.getD m pZero) (P.getD i pZero) (P.getD j pZero) ≤ EPS :=
            le_trans hd (le_of_lt (not_le.mp h2))
          have hnotin : (i, j) ∉ rest := by
            intro hc
            exact (List.pairwise_cons.mp hinv.disj).1 (i, j) hc m hin hin
          exact Or.inr ⟨i, j, (hinv.ends_kept (i, j) (List.mem_cons_self _ _)).1,
            (hinv.ends_kept (i, j) (List.mem_cons_self _ _)).2, hin.1, hin.2,
            hinv.no_kept_inside (i, j) (List.mem_cons_self _ _), hnotin, hd2⟩
        · exact Or.inl ⟨I, hI2, hin⟩
      · exact Or.inr (hs.mono_wl (fun x hx => List.mem_cons_of_mem _ hx))

theorem emission_sublist (P : List (ℝ × ℝ)) (K : Finset ℕ) :
    List.Sublist ((P.enum.filter (fun q => decide (q.1 ∈ K))).map Prod.snd) P := by
  have h1 : List.Sublist (P.enum.filter (fun q => decide (q.1 ∈ K))) P.enum :=
    List.filter_sublist _
  have h2 := h1.map Prod.snd
  rw [List.enum_map_snd] at h2
  exact h2

theorem emission_head? (P : List (ℝ × ℝ)) (K : Finset ℕ) (h0 : (0 : ℕ) ∈ K)
    (x : ℝ × ℝ) (hx : P.head? = some x) :
    ((P.enum.filter (fun q => decide (q.1 ∈ K))).map Prod.snd).head? = some x := by
  have h1 : P.enum.head? = some (0, x) := by
    rw [enum_head?, hx]
    rfl
  have h2 := filter_head?_of_pos P.enum (fun q => decide (q.1 ∈ K)) (0, x) h1 (by simpa using h0)
  rw [List.head?_map, h2]
  rfl

theorem emission_getLast? (P : List (ℝ × ℝ)) (K : Finset ℕ) (hK : P.length - 1 ∈ K)
    (x : ℝ × ℝ) (hx : P.getLast? = some x) :
    ((P.enum.filter (fun q => decide (q.1 ∈ K))).map Prod.snd).getLast? = some x := by
  have h1 : P.enum.getLast? = some (P.length - 1, x) := by
    rw [enum_getLast?, hx]
    rfl
  have h2 := filter_getLast?_of_pos P.enum (fun q => decide (q.1 ∈ K)) (P.length - 1, x) h1
    (by simpa using hK)
  rw [List.getLast?_map, h2]
  rfl

theorem rdp_kept_endpoints (P : List (ℝ × ℝ)) :
    (0 : ℕ) ∈ rdp_kept P ∧ P.length - 1 ∈ rdp_kept P := by
  have hsub := rdpLoop_subset P [(0, P.length - 1)] {0, P.length - 1}
  exact ⟨hsub (Finset.mem_insert_self _ _),
    hsub (Finset.mem_insert_of_mem (Finset.mem_singleton_self _))⟩

theorem simplify_ne_nil {p : List (ℝ × ℝ)} (h : p ≠ []) : simplify p ≠ [] := by
  by_cases hlen : p.length ≤ 2
  · rw [simplify, if_pos hlen]
    exact h
  · obtain ⟨x, hx⟩ : ∃ x, p.head? = some x := by
      cases p with
      | nil => exact absurd rfl h
      | cons y ys => exact ⟨y, rfl⟩
    have hh := emission_head? p (rdp_kept p) (rdp_kept_endpoints p).1 x hx
    rw [simplify, if_neg hlen]
    intro hc
    rw [hc] at hh
    simp at hh

/-- C6 (amended): simplify(P) is a subsequence of P; when |P| ≥ 2 the first
and last points of P are preserved; and for |P| ≥ 3 (the only case in which
the worklist runs and points can be removed at all) every removed index lies
strictly between two kept indices with no kept index in between, and its
point is within perpendicular distance EPS = 3.0 of the line through those
two retained neighbours. -/
theorem simplify_spec (P : List (ℝ × ℝ)) :
    List.Sublist (simplify P) P ∧
    (2 ≤ P.length → (simplify P).head? = P.head? ∧ (simplify P).getLast? = P.getLast?) ∧
    (3 ≤ P.length → ∀ m, m < P.length → m ∉ rdp_kept P →
      ∃ i j, i ∈ rdp_kept P ∧ j ∈ rdp_kept P ∧ i < m ∧ m < j ∧
        (∀ l ∈ rdp_kept P, ¬(i < l ∧ l < j)) ∧
        perp_dist (P.getD m pZero) (P.getD i pZero) (P.getD j pZero) ≤ EPS) := by
  by_cases hlen : P.length ≤ 2
  · rw [simplify, if_pos hlen]
    exact ⟨List.Sublist.refl P, fun _ => ⟨rfl, rfl⟩, fun h3 => absurd h3 (by omega)⟩
  · have hinv : RdpInv P [(0, P.length - 1)] {0, P.length - 1} := by
      refine ⟨?_, ?_, ?_, ?_, List.pairwise_singleton _ _, ?_⟩
      · intro I hI
        rcases List.mem_cons.mp hI with rfl | hI
        · exact ⟨Finset.mem_insert_self _ _,
            Finset.mem_insert_of_mem (Finset.mem_singleton_self _)⟩
        · exact absurd hI (List.not_mem_nil I)
      · intro I hI
        rcases List.mem_cons.mp hI with rfl | hI
        · show 0 < P.length - 1
          omega
        · exact absurd hI (List.not_mem_nil I)
      · intro l hl
        rcases Finset.mem_insert.mp hl with rfl | hl
        · omega
        · rw [Finset.mem_singleton] at hl
          omega
      · intro I hI l hl
        rcases List.mem_cons.mp hI with rfl | hI
        · rcases Finset.mem_insert.mp hl with rfl | hl
          · simp only [insideI]
            omega
          · rw [Finset.mem_singleton] at hl
            subst hl
            simp only [insideI]
            omega
        · exact absurd hI (List.not_mem_nil I)
      · intro m hm hmk
        refine Or.inl ⟨(0, P.length - 1), List.mem_cons_self _ _, ?_⟩
        have h0 : m ≠ 0 := fun hc => hmk (hc ▸ Finset.mem_insert_self _ _)
        have h1 : m ≠ P.length - 1 := fun hc =>
          hmk (hc ▸ Finset.mem_insert_of_mem (Finset.mem_singleton_self _))
        show 0 < m ∧ m < P.length - 1
        omega
    have hset := rdpLoop_settles P [(0, P.length - 1)] {0, P.length - 1} hinv
    have hPne : P ≠ [] := by
      intro hc
      rw [hc] at hlen
      simp at hlen
    rw [simplify, if_neg hlen]
    refine ⟨emission_sublist P (rdp_kept P), ?_, ?_⟩
    · intro _
      constructor
      · obtain ⟨x, hx⟩ : ∃ x, P.head? = some x := by
          cases P with
          | nil => exact absurd rfl hPne
          | cons y ys => exact ⟨y, rfl⟩
        rw [hx]
        exact emission_head? P (rdp_kept P) (rdp_kept_endpoints P).1 x hx
      · obtain ⟨x, hx⟩ : ∃ x, P.getLast? = some x := by
          rcases hg : P.getLast? with - | y
          · exact absurd (List.getLast?_eq_none_iff.mp hg) hPne
          · exact ⟨y, rfl⟩
        rw [hx]
        exact emission_getLast? P (rdp_kept P) (rdp_kept_endpoints P).2 x hx
    · intro _ m hm hmK
      obtain ⟨i, j, h1, h2, h3, h4, h5, -, h7⟩ := hset.2 m hm hmK
      exact ⟨i, j, h1, h2, h3, h4, h5, h7⟩

/-- C6 counterexample: the simplifier returns polylines of length at most two
unchanged, so a single point comes back with length 1 (neither 0 nor at least
2) and a degenerate two-point polyline comes back with two consecutive
identical points. -/
theorem simplify_small_counterexample :
    simplify [((0 : ℝ), (0 : ℝ))] = [((0 : ℝ), (0 : ℝ))] ∧
    (simplify [((0 : ℝ), (0 : ℝ))]).length = 1 ∧
    simplify [((0 : ℝ), (0 : ℝ)), ((0 : ℝ), (0 : ℝ))] =
      [((0 : ℝ), (0 : ℝ)), ((0 : ℝ), (0 : ℝ))] := by
  refine ⟨?_, ?_, ?_⟩
  · rw [simplify, if_pos (by simp)]
  · rw [simplify, if_pos (by simp)]
    rfl
  · rw [simplify, if_pos (by simp)]

theorem farthest_collinear3 :
    farthest [((0 : ℝ), 0), (1, 0), (2, 0)] 0 2 =
      (1, perp_dist ([((0 : ℝ), 0), (1, 0), (2, 0)].getD 1 pZero)
        ([((0 : ℝ), 0), (1, 0), (2, 0)].getD 0 pZero)
        ([((0 : ℝ), 0), (1, 0), (2, 0)].getD 2 pZero)) := by
  rw [farthest]
  rw [show List.range' (0 + 1) (2 - 0 - 1) = [1] from rfl]
  rw [List.foldl_cons, List.foldl_nil]
  rw [if_neg (lt_irrefl _)]

theorem perp_dist_collinear3 :
    perp_dist ([((0 : ℝ), 0), (1, 0), (2, 0)].getD 1 pZero)
      ([((0 : ℝ), 0), (1, 0), (2, 0)].getD 0 pZero)
      ([((0 : ℝ), 0), (1, 0), (2, 0)].getD 2 pZero) = 0 := by
  show perp_dist ((1 : ℝ), (0 : ℝ)) ((0 : ℝ), (0 : ℝ)) ((2 : ℝ), (0 : ℝ)) = 0
  simp only [perp_dist]
  have hlen : Real.sqrt (((2 : ℝ) - 0) ^ 2 + ((0 : ℝ) - 0) ^ 2) = 2 := by
    rw [show ((2 : ℝ) - 0) ^ 2 + ((0 : ℝ) - 0) ^ 2 = 2 ^ 2 by norm_num]
    exact Real.sqrt_sq (by norm_num)
  rw [hlen, if_neg (by norm_num)]
  norm_num

theorem rdp_kept_collinear3 :
    rdp_kept [((0 : ℝ), 0), (1, 0), (2, 0)] = {0, 2} := by
  rw [rdp_kept]
  show rdpLoop [((0 : ℝ), 0), (1, 0), (2, 0)] [(0, 2)] {0, 2} = {0, 2}
  rw [rdpLoop]
  rw [if_neg (by omega : ¬((2 : ℕ) ≤ 0 + 1))]
  rw [farthest_collinear3]
  simp only [perp_dist_collinear3]
  rw [if_neg (by rw [EPS]; norm_num)]
  rw [rdpLoop]

/-- C6 witness: on a straight two-point polyline first and last survive; on
the collinear three-point polyline the middle index 1 is removed and has
kept neighbours 0 and 2 within tolerance. -/
theorem simplify_spec_witness :
    (simplify [((0 : ℝ), (0 : ℝ)), ((3 : ℝ), (4 : ℝ))]).head? = some ((0 : ℝ), (0 : ℝ)) ∧
    (simplify [((0 : ℝ), (0 : ℝ)), ((3 : ℝ), (4 : ℝ))]).getLast? = some ((3 : ℝ), (4 : ℝ)) ∧
    (∃ i j, i ∈ rdp_kept [((0 : ℝ), 0), (1, 0), (2, 0)] ∧
      j ∈ rdp_kept [((0 : ℝ), 0), (1, 0), (2, 0)] ∧ i < 1 ∧ 1 < j ∧
      (∀ l ∈ rdp_kept [((0 : ℝ), 0), (1, 0), (2, 0)], ¬(i < l ∧ l < j)) ∧
      perp_dist ([((0 : ℝ), 0), (1, 0), (2, 0)].getD 1 pZero)
        ([((0 : ℝ), 0), (1, 0), (2, 0)].getD i pZero)
        ([((0 : ℝ), 0), (1, 0), (2, 0)].getD j pZero) ≤ EPS) := by
  refine ⟨?_, ?_, ?_⟩
  · rw [((simplify_spec [((0 : ℝ), (0 : ℝ)), ((3 : ℝ), (4 : ℝ))]).2.1 (by norm_num)).1]
    rfl
  · rw [((simplify_spec [((0 : ℝ), (0 : ℝ)), ((3 : ℝ), (4 : ℝ))]).2.1 (by norm_num)).2]
    rfl
  · exact (simplify_spec [((0 : ℝ), 0), (1, 0), (2, 0)]).2.2 (by norm_num) 1 (by norm_num)
      (by rw [rdp_kept_collinear3]; decide)

/-- C5 (amended): dump_svg creates no file (and returns Ok) when every input
polyline is empty, the only way no finite point can remain; otherwise it
writes a document with exactly one polyline element per input polyline,
empty inputs included. -/
theorem dump_svg_spec (w h sw : ℝ) (bg : String) (paths : List (List (ℝ × ℝ))) :
    ((∀ p ∈ paths, p = []) → dump_svg w h sw bg paths = none) ∧
    ((∃ p ∈ paths, p ≠ []) → ∃ doc, dump_svg w h sw bg paths = some doc ∧
      doc.polylines.length = paths.length) := by
  have hsimp0 : simplify ([] : List (ℝ × ℝ)) = [] := by
    rw [simplify, if_pos (by simp)]
  constructor
  · intro hall
    have hflat : (paths.map (fun p => (simplify p).map (fun q => (q.1, -q.2)))).flatten = [] := by
      rw [List.flatten_eq_nil_iff]
      intro x hx
      rw [List.mem_map] at hx
      obtain ⟨p, hp, rfl⟩ := hx
      rw [hall p hp, hsimp0]
      rfl
    simp only [dump_svg, hflat]
  · rintro ⟨p, hp, hpne⟩
    rcases hflat : (paths.map (fun p => (simplify p).map (fun q => (q.1, -q.2)))).flatten with - | ⟨q, rest⟩
    · exfalso
      rw [List.flatten_eq_nil_iff] at hflat
      have := hflat ((simplify p).map (fun q => (q.1, -q.2)))
        (List.mem_map_of_mem _ hp)
      rw [List.map_eq_nil_iff] at this
      exact simplify_ne_nil hpne this
    · simp only [dump_svg, hflat]
      refine ⟨_, rfl, ?_⟩
      simp [List.length_map]

/-- C5 counterexample: on the inputs [[(0,0),(1,0)], [(0,1)], []] the writer
produces a document with three polyline elements although only two input
polylines are non-empty. -/
theorem dump_svg_counts_counterexample :
    ∃ doc, dump_svg 1920 1080 (3 / 10) ("none")
        [[((0 : ℝ), (0 : ℝ)), ((1 : ℝ), (0 : ℝ))], [((0 : ℝ), (1 : ℝ))], []] = some doc ∧
      doc.polylines.length = 3 ∧
      ([[((0 : ℝ), (0 : ℝ)), ((1 : ℝ), (0 : ℝ))], [((0 : ℝ), (1 : ℝ))],
        ([] : List (ℝ × ℝ))].countP (fun p => !p.isEmpty)) = 2 ∧
      (3 : ℕ) ≠ 2 := by
  exact ⟨_, rfl, rfl, rfl, by decide⟩

/-- C5 witness: a single empty polyline produces no document; a single
one-point polyline produces a document with one polyline element. -/
theorem dump_svg_spec_witness :
    dump_svg 1920 1080 (3 / 10) ("none") [([] : List (ℝ × ℝ))] = none ∧
    (∃ doc, dump_svg 1920 1080 (3 / 10) ("none") [[((0 : ℝ), (0 : ℝ))]] = some doc ∧
      doc.polylines.length = 1) := by
  constructor
  · exact (dump_svg_spec 1920 1080 (3 / 10) ("none") [([] : List (ℝ × ℝ))]).1 (by simp)
  · exact (dump_svg_spec 1920 1080 (3 / 10) ("none") [[((0 : ℝ), (0 : ℝ))]]).2
      ⟨[((0 : ℝ), (0 : ℝ))], by simp, by simp⟩

theorem sqrt_two_lb : (1.41421356 : ℝ) < Real.sqrt 2 :=
  (Real.lt_sqrt (by norm_num)).mpr (by norm_num)

theorem sqrt_two_ub : Real.sqrt 2 < (1.41421357 : ℝ) :=
  (Real.sqrt_lt' (by norm_num)).mpr (by norm_num)

theorem tan_three_pi_div_eight : Real.tan (3 * Real.pi / 8) = 1 + Real.sqrt 2 := by
  have hs2 : Real.sqrt 2 ^ 2 = 2 := Real.sq_sqrt (by norm_num)
  have h2pos : (0 : ℝ) < 2 - Real.sqrt 2 := by nlinarith [hs2, Real.sqrt_nonneg 2]
  have hb : Real.sqrt (2 - Real.sqrt 2) ≠ 0 := ne_of_gt (Real.sqrt_pos.mpr h2pos)
  have key : Real.sqrt (2 + Real.sqrt 2) = (1 + Real.sqrt 2) * Real.sqrt (2 - Real.sqrt 2) := by
    have h1 : (1 + Real.sqrt 2) * Real.sqrt (2 - Real.sqrt 2) =
        Real.sqrt ((1 + Real.sqrt 2) ^ 2) * Real.sqrt (2 - Real.sqrt 2) := by
      rw [Real.sqrt_sq (by positivity)]
    rw [h1, ← Real.sqrt_mul (by positivity)]
    congr 1
    linear_combination Real.sqrt 2 * hs2
  have h38 : 3 * Real.pi / 8 = Real.pi / 2 - Real.pi / 8 := by ring
  rw [h38, Real.tan_pi_div_two_sub, Real.tan_eq_sin_div_cos, Real.sin_pi_div_eight,
    Real.cos_pi_div_eight, inv_div]
  rw [key]
  field_simp

set_option maxHeartbeats 1000000 in
theorem log_one_add_sqrt_two_ub : Real.log (1 + Real.sqrt 2) ≤ (5621522.49 : ℝ) / 6378137 := by
  have hpos : (0 : ℝ) < 1 + Real.sqrt 2 := by positivity
  rw [Real.log_le_iff_le_exp hpos]
  have hsum := @Real.sum_le_exp_of_nonneg (0.88137374 : ℝ) (by norm_num) 13
  have hmono : Real.exp (0.88137374 : ℝ) ≤ Real.exp ((5621522.49 : ℝ) / 6378137) := by
    rw [Real.exp_le_exp]
    norm_num
  have hnum : (2.41421357 : ℝ) ≤ ∑ i ∈ Finset.range 13, (0.88137374 : ℝ) ^ i / i.factorial := by
    simp only [Finset.sum_range_succ, Finset.sum_range_zero, Nat.factorial]
    norm_num
  calc (1 : ℝ) + Real.sqrt 2 ≤ 2.41421357 := by linarith [sqrt_two_ub]
    _ ≤ ∑ i ∈ Finset.range 13, (0.88137374 : ℝ) ^ i / i.factorial := hnum
    _ ≤ Real.exp (0.88137374 : ℝ) := hsum
    _ ≤ Real.exp ((5621522.49 : ℝ) / 6378137) := hmono

set_option maxHeartbeats 1000000 in
theorem log_one_add_sqrt_two_lb : (5621520.49 : ℝ) / 6378137 ≤ Real.log (1 + Real.sqrt 2) := by
  have hpos : (0 : ℝ) < 1 + Real.sqrt 2 := by positivity
  rw [Real.le_log_iff_exp_le hpos]
  have hbound := @Real.exp_bound' (0.88137344 : ℝ) (by norm_num) (by norm_num) 13 (by norm_num)
  have hmono : Real.exp ((5621520.49 : ℝ) / 6378137) ≤ Real.exp (0.88137344 : ℝ) := by
    rw [Real.exp_le_exp]
    norm_num
  have hnum : (∑ i ∈ Finset.range 13, (0.88137344 : ℝ) ^ i / i.factorial) +
      (0.88137344 : ℝ) ^ 13 * (13 + 1) / (Nat.factorial 13 * 13) ≤ 2.41421356 := by
    simp only [Finset.sum_range_succ, Finset.sum_range_zero, Nat.factorial]
    norm_num
  calc Real.exp ((5621520.49 : ℝ) / 6378137) ≤ Real.exp (0.88137344 : ℝ) := hmono
    _ ≤ (∑ i ∈ Finset.range 13, (0.88137344 : ℝ) ^ i / i.factorial) +
        (0.88137344 : ℝ) ^ 13 * (13 + 1) / (Nat.factorial 13 * 13) := hbound
    _ ≤ 2.41421356 := hnum
    _ ≤ 1 + Real.sqrt 2 := by linarith [sqrt_two_lb]

/-- C9: to_xy computes x = R · lon · pi/180 and y = R · ln(tan(lat · pi/360 +
pi/4)) with R = 6378137; in particular project(0,0) = (0,0), project(0,180)
is within one metre of (20037508.34, 0), and project(45,0) is within one
metre of (0, 5621521.49). -/
theorem to_xy_spec :
    (∀ lat lon : ℝ, |lat| < 90 →
      to_xy lat lon = (EARTH_RADIUS * lon * (Real.pi / 180),
        EARTH_RADIUS * Real.log (Real.tan (lat * Real.pi / 360 + Real.pi / 4)))) ∧
    to_xy 0 0 = (0, 0) ∧
    (|(to_xy 0 180).1 - 20037508.34| ≤ 1 ∧ (to_xy 0 180).2 = 0) ∧
    ((to_xy 45 0).1 = 0 ∧ |(to_xy 45 0).2 - 5621521.49| ≤ 1) := by
  refine ⟨?_, ?_, ⟨?_, ?_⟩, ⟨?_, ?_⟩⟩
  · intro lat lon _
    rw [to_xy]
    simp only [Prod.mk.injEq]
    constructor
    · ring
    · rw [show lat * (Real.pi / 180) / 2 = lat * Real.pi / 360 by ring]
      ring
  · rw [to_xy]
    norm_num [Real.tan_pi_div_four]
  · have hx : (to_xy 0 180).1 = Real.pi * 6378137 := by
      show 180 * (Real.pi / 180) * EARTH_RADIUS = Real.pi * 6378137
      rw [EARTH_RADIUS]
      ring
    rw [hx, abs_le]
    constructor
    · linarith [Real.pi_gt_d20]
    · linarith [Real.pi_lt_d20]
  · show Real.log (Real.tan (0 * (Real.pi / 180) / 2 + Real.pi / 4)) * EARTH_RADIUS = 0
    norm_num [Real.tan_pi_div_four]
  · show 0 * (Real.pi / 180) * EARTH_RADIUS = 0
    norm_num
  · have hy : (to_xy 45 0).2 = Real.log (1 + Real.sqrt 2) * 6378137 := by
      show Real.log (Real.tan (45 * (Real.pi / 180) / 2 + Real.pi / 4)) * EARTH_RADIUS =
        Real.log (1 + Real.sqrt 2) * 6378137
      rw [show (45 : ℝ) * (Real.pi / 180) / 2 + Real.pi / 4 = 3 * Real.pi / 8 by ring]
      rw [tan_three_pi_div_eight, EARTH_RADIUS]
    rw [hy, abs_le]
    constructor
    · linarith [log_one_add_sqrt_two_lb]
    · linarith [log_one_add_sqrt_two_ub]

/-- C9 witness: the general projection formula applied at latitude 0 and
longitude 0. -/
theorem to_xy_spec_witness :
    to_xy 0 0 = (EARTH_RADIUS * 0 * (Real.pi / 180),
      EARTH_RADIUS * Real.log (Real.tan (0 * Real.pi / 360 + Real.pi / 4))) :=
  to_xy_spec.1 0 0 (by norm_num)

end Roads
